import Mathlib

/-!
Verification of the prime-listing program in `src/main.cpp`.

The program offers three algorithms that map a bound `count` to the ordered
sequence of surviving candidates: `simplest` (vector with erase-while-iterating),
`using_remove_if` (forward_list with predicate removal) and `optimal_case`
(boolean flag sieve plus a copy pass), together with a timing harness
`time_and_print_result`.  Each C++ function is embedded below as a Lean
function on `Nat` / `List Nat`, and the claims of the specification are proved
against these embeddings.
-/

namespace Primes

/-- Removal predicate shared by the inner loops of `simplest` (main.cpp line 25)
and `using_remove_if` (main.cpp lines 49-51): element `v` is a multiple of `n`
strictly greater than `n`. -/
def isCulled (n v : Nat) : Bool :=
  decide (n < v) && decide (v % n = 0)

/-- Embedding of the erase-while-iterating inner loop of `simplest`
(main.cpp lines 23-30): walk the vector from the current position, erasing each
element satisfying `isCulled` (the erase continues at the successor position)
and stepping over the others. -/
def eraseMultiples (n : Nat) : List Nat → List Nat
  | [] => []
  | v :: rest => if isCulled n v then eraseMultiples n rest else v :: eraseMultiples n rest

/-- Embedding of `simplest` (main.cpp lines 13-34): seed the vector with
`1 .. count` via `iota`, then for each `n` from 2 to `count` inclusive erase the
multiples of `n` above `n`. -/
def simplest (count : Nat) : List Nat :=
  (List.range' 2 (count - 1)).foldl (fun l n => eraseMultiples n l) (List.range' 1 count)

/-- Embedding of `using_remove_if` (main.cpp lines 39-55): same seed and outer
rounds, with `forward_list::remove_if`, which keeps exactly the elements on
which the removal predicate is false. -/
def using_remove_if (count : Nat) : List Nat :=
  (List.range' 2 (count - 1)).foldl
    (fun l n => l.filter (fun v => !(isCulled n v))) (List.range' 1 count)

/-- Embedding of the inner while loop of `optimal_case` (main.cpp lines 91-94):
starting at offset `k`, set the flag at every offset `k, k + n, k + 2n, ...`
below the end of the flag vector to false.  The source loop advances the
iterator by `n` each step; the conjunct `0 < n` in the guard makes termination
explicit and holds at the only call site, where `n ≥ 2`. -/
def clearMultiples (n : Nat) (flags : List Bool) (k : Nat) : List Bool :=
  if _h : k < flags.length ∧ 0 < n then
    clearMultiples n (flags.set k false) (k + n)
  else flags
  termination_by flags.length - k
  decreasing_by simp only [List.length_set]; omega

/-- One round of the outer sieve loop of `optimal_case` (main.cpp lines 75-95):
read the flag at offset `n`; if it is already false skip, otherwise clear the
flags of all multiples of `n` starting at `2 * n`. -/
def sieveStep (fs : List Bool) (n : Nat) : List Bool :=
  if fs.getD n false = false then fs else clearMultiples n fs (2 * n)

/-- Outer sieve loop of `optimal_case` (main.cpp line 75): `n` runs from 2 to
`flags.size() / 2 = (count + 1) / 2` inclusive. -/
def sieveLoop (count : Nat) (flags : List Bool) : List Bool :=
  (List.range' 2 ((count + 1) / 2 - 1)).foldl sieveStep flags

/-- Embedding of `optimal_case` (main.cpp lines 68-109): sieve a flag vector of
length `count + 1` initialized to all-true, then emit every nonzero offset
whose flag is still true, in ascending order (main.cpp lines 100-106). -/
def optimal_case (count : Nat) : List Nat :=
  let flags := sieveLoop count (List.replicate (count + 1) true)
  (List.range (count + 1)).filter (fun i => decide (i ≠ 0) && flags.getD i false)

/-- Canonical ascending list of the primes in `[2, N]`. -/
def primesUpTo (N : Nat) : List Nat :=
  (List.range' 2 (N - 1)).filter (fun v => decide (Nat.Prime v))

/-- Common value of all three algorithms: the integers in `[1, N]` that are 1
or prime, in ascending order. -/
def primesWithOne (N : Nat) : List Nat :=
  (List.range' 1 N).filter (fun v => v == 1 || decide (Nat.Prime v))

/-- Unit in which `time_and_print_result` reports the elapsed time. -/
inductive TimeUnit
  | ms
  | ns
deriving DecidableEq

/-- Embedding of the unit-selection branch of `time_and_print_result`
(main.cpp lines 122-126): the elapsed time, modelled as a non-negative count of
nanoseconds, is cast to whole milliseconds (truncating division); a positive
millisecond count selects the millisecond report, otherwise the nanosecond
report is used. -/
def reportUnit (elapsedNs : Nat) : TimeUnit :=
  if 0 < elapsedNs / 1000000 then TimeUnit.ms else TimeUnit.ns

/-- Bitmask of the multiples `2n, 3n, ..., (N / n) * n` of `n` that lie in
`[2n, N]`: bit `t * n` is set for each `2 ≤ t ≤ N / n`.  The bits form a
geometric series, computed in closed form so that the kernel can evaluate it
with a constant number of big-number operations. -/
def multMask (n N : Nat) : Nat :=
  if 2 ≤ N / n then (((1 <<< ((N / n - 1) * n)) - 1) / ((1 <<< n) - 1)) <<< (2 * n) else 0

/-- Union (bitwise or) of `multMask d N` over `lo ≤ d < lo + len`, computed by
a balanced divide-and-conquer so that kernel reduction stays shallow.  The fuel
only bounds the recursion; `len ≤ 2 ^ fuel` always suffices. -/
def orMult (N : Nat) : Nat → Nat → Nat → Nat
  | _, _, 0 => 0
  | _, lo, 1 => multMask lo N
  | 0, _, _ => 0
  | fuel + 1, lo, len + 2 =>
    orMult N fuel lo ((len + 2) / 2) |||
      orMult N fuel (lo + (len + 2) / 2) (len + 2 - (len + 2) / 2)

/-- Bitmask equivalent of the flag state after the sieve pass of
`optimal_case` on bound `N`: bit `j` is set exactly when flag `j` was cleared,
i.e. when `j` is a multiple `t * d`, `t ≥ 2`, of some `2 ≤ d ≤ (N + 1) / 2`. -/
def fastMask (N : Nat) : Nat :=
  orMult N ((N + 1) / 2) 2 ((N + 1) / 2 - 1)

/-- Number of offsets in `[lo, lo + len)` whose bit in the mask is clear,
i.e. whose flag is still true, computed by balanced divide-and-conquer.
Again `len ≤ 2 ^ fuel` suffices. -/
def cnt (mask : Nat) : Nat → Nat → Nat → Nat
  | _, _, 0 => 0
  | _, lo, 1 => if mask.testBit lo then 0 else 1
  | 0, _, _ => 0
  | fuel + 1, lo, len + 2 =>
    cnt mask fuel lo ((len + 2) / 2) +
      cnt mask fuel (lo + (len + 2) / 2) (len + 2 - (len + 2) / 2)

/-- Geometric sum of bits `2 ^ (t * n)` for `t < q`, the recursive companion
of the closed form used in `multMask`. -/
def geomSum (n : Nat) : Nat → Nat
  | 0 => 0
  | q + 1 => geomSum n q + 2 ^ (q * n)

/-- Value of `fastMask 50000`, the sieve bitmask at the shipped bound, stated
as an explicit numeral: bit j is set exactly when 2 <= j <= 50000 is composite.
Keeping the numeral lets the count over the mask be checked without
re-evaluating the sieve at every bit probe. -/
def sieveMask50000 : Nat := 4710182949846067511179952072542205753501462050736437558573561593779141986499711051758323886877441000530891165093743680613467862108976714134466348817000726204189691780414595869948628361972093302658043415023060996804281042369225795576149684570456431150229975154874723419024397946805571175511920663758021077594633560129745876411039270590119247863015899348635534254730897833771367172109006593464748181644324408661371626315884959724795145888090924713461042719054402501607398180127691352576253918835576611665943849184316379278585007241702905961176591165314495022424183616700179796114294820839827165294162007017933040315523578780932790940389953396239340103773147293287566633302881728214377665579110850651420656256886591540273234981794278737069610396464916619106845007157596018175746513874610482088219747065474971089056072888232141448381788539050265435510233233751459285755901461587907274901713981476441268758483455486626450188776466121303253495032560740897888980891237264004018239518037612635752860234153832798962476029771853367712025916230643454489645431032106643827605513559928381002491862988705773220862003721410440319905153291084566459047831609758485266665890116209517149075966432043031550357624664253452465261681018011724302782080342720639307553142386185955149442981362367607072843513998203866990594443457497679945794953786583372984211190077497023120179952255848236249465491970975619563853386650337940850326236894749054423363662880785841671825654265658275846229700804404407019114748126705114064903094004502596477240949908313380921333504376629669506891774354466047251196117009744004808968511249453978982049916914366467234059617878447712198587482382031565724129117435340516754027219098846950466514672815470303760180189696804642734446048603481119699607580969766349560326126339702599692585203145155884753508250187922426510024951573335425189218369968567955437742919713570091137156473034040308881296553641193736073599982988302893123869695514114526198162601921460297110949872502054945473004536708455632068746047032501785504982895704499734944117116067072859283187705332563142173441164071026300394443085336417998734435849641121450318285333494637187816803927222389302581513277343693042096859940638996662025235161855084693851029827948497097062996773443981094471994033075316177187135111122990887637615799391828061168395356030118077988521434826402921603070661657406030561006487463825631897710223064933103207495822784370138439194092280991355940146454436864132262672707359197273382738951051241109473075309455349086649664819328997973058384746957655706934399801325832467578160071121966398225127665281864233953954119777750925406680531521918361495252077687979506922706558023224867014673578266470388456198406705271165142299126785829209282826729194085157896399253128159543864532118431436381868561162515214015203618122933557255171112506622973095206560291419095247671764084081814565604923558660976815089817019925310357367774829210585300171502575690520669994235862785247761470719267796646917522998295100016810404052507121951001397826476879211001580584138165544117688832580183724227964852437737950832852948941391208509649660788396331018168899676528229193338138178576009324281915676370611996857368448063871708407101805091425566503441773534930937630809360233128223206692926658150482406088919461142099616550064753086879899576976326730596980027454454256549197592893535700879328159660859791121246640681174975529385553239368921905490944450168574143735132949094228784545398010349580500287247195953823515658732696416731690919877801485284787910340004845933125142343180316088398670795685746579122243654949152274306966482827963395865000688402913056238286614688895061173467761794248161425043459227091318518322038232692211609107088472332951924908707805285731006192729192653566486672862328246344338951515151765937177048644782612579807507979344984196205794700902219038202716893740229011973184054046238519162117926706172498316252103449626798903857085198248145228590011475143383540908111442615034185313976853001559125407367846101844784712475958661799842852573618993911121668143435880709503341961917711444024553914281751620383576383136190745567061955604267123662849664838228730867725309786814483601483769334288480729590585892647885627867655516657054170281427578358499711301538457579010316649184843095052335114287577128754591904929674413061207764550275086748109859428830002003432149487185060683162504616815938731913403623845719498565394007652017519348698712371247235684651847165543820631369415023547272914911781986387983133411595443158918333834279416684520309415313615155148703128821969926717307625403786127803957479619120781028367797322220944384326060413438443813138277721539430333010486009761054251393741456023823704316315146544656244174878749380900195737953967076223480735059977695717158411235682905435954688304201586816417640080782884238835914400793442179092988810243313122589279783578501716739651913744621098034285163138545442122683844391767654711153281156651777287682006208827442469545843105440145572473690203432033559258206890370069684124917004941044717799980621509787060748806024557914059650379790519358006803680639032332989193532403277623875131878450646844910468048591238053765437095655140152251538123574065081342706165877553653652827441375575724860799064027364266579814425762167179521965353263443882631424226278112116892000689536611175898010083770792544388539887842855566742005537514823565399668007733826497918469478358023678120066029023539891405352864278102013883173752128886774651502330666993755345157284548424195257912674443125027638336576868495079103787383811869108811920850902877119118564512541035716757964596268674360378473352733625131718333751104988617873856223365054875558742139932954857025817354494809969610676137586617612230032257363649964622844848835356177809964043160256997569651441142559824884352679752840012049127378885328376656436402200877814478655344922079357844836418374636709226910222376601879094510050739198187272917574669338662320151692223904769710878351337083039855204556095987009180543124477025206736428120422559093071566019527558645344228175426437837491853536705989083941963084858688712677874434460477624495273166086016809420640236817676286831834167396810280711785529985962249269337665330943689995896285343216173642199645270084404969239051196113191189034824357526005691461400721435392758399152589560613505214466238916335966166359747073701035345721829893128450860585606919233413115775919097897270027133072920073734957703459357505719082494493176031918246632460908674111765549822584793274332964615023649281958969188716295397375264606456660902973140164191869903615306157797527150307708973576810134007223838968103046851950139356858471734909143931612418828157863170965841908833938454901508368482732374859903035861924728868126341221257733283215743872306893697353652477625658641938274613003802601510422331398545866892498922743173724102589802777573413547050931398800700569012641189922053201453915597262487440453960442236712489434542031569660606403186895251388935869062346003989685091140673194180551517659034346054075931509280418501197978928850537598315316154873107952378805911610861914170699808206065868765148387975982508692667163943945001314427721055910437183072895027191764272131064685220089998484949797049346231799140098617758161313087148931583972955758969531577072106150689784959899818759741674085134608316494358092684136197483413434425177010981929308753558237333655468617965256839491281487717029870582142632027414609756634796389741501776293206931946190680478869752273957029534335844250223479678223289950760541721060381633444624883955313682851749129284237968635462569969068227394801166502353227368509808452826897885579648187544108680570290054334933299674793635912201273614165558634728092496688995959080986804978296950182314064405978727540510726793234149412416222301983454455087427507504545521845695460265563219285655339406095511543822054924866639611578298916204737086789223310668334346110978933926818265588782503135599991149679910179997338251669659356943906024979296592353397984868278075419097902151470929374465400067746536327937782079568487294556474720065274475589882370983216990133841014797771893886410298745697296721493726452507547457996899244533572415076157721818533937972529226823545089799665739180706606782481730464635759640122041376762813823125154999671989602475818982518170193229721497682332108188751732783830900156734718991030400124372111926686522627115074955884445774081943571429282256606520959255837003368010612980986876749017060793561302472410026346219533657108143017950494203806626585224113830953317011668556216246904497522862332856435392996838595108178749027824627002933276575372486388704505873979214537561827930361691561304907479029441178883660048087145061089066955629971692030167254314188307859279574771716208114671450238359211766842940897230002246298033911997031635855984261924652888113905688176842688735274067013884492970937755521144571550218648749165631272288437762971138948362547904667180104735805556350558083024912598462839444320863796757193832153971093467913144288021830943508625766634893228095999833790349204667349074078653500245593629856931690877448769475439227264187962300017452257695947728760324000000369835461134179656751294024074660257515021117788792535107797518549313712468507813802790530798082221508683184370498237894664413636344591154774081747499410587638387574219569653775003302976031611056068186365305698523277638078420366212091752091032936674888347102519055801147516547729115646043228558621143533724119324489971125378977756132998720347013539110962059879077935204394974100150638058834923154564669261062590161761819665493253966616308856605174905584988103060979119845741484267506588172558036278618064494195639863098678424342228459541415766384585481536094458389943394741286999772827951523187653865433726823929474540390705785586335651236981811449916160974459966342515625339620470644692282764384261503027138649422187880025487617213823673795315357850484489845588866198498691165942390852252925540420423246289013568539034842892376053141814361478055474300199988233761295248040221872095663704525779921880735924444701031081842333038369043083411660092263633248648327035044749012815663534046293437708603931933888976250216573681150107536133871965663126880998156462806508997863817974789740141846712167867772232538027302592260525902243133486741700663695017114923037415044784812390960231611985205493415224702097264303735935354979455759504424435291593736611118962909803787060192038767777629082673171240424442684870939121505038804865255943675920547279962964617858220308946576502971066209386837406696170947937974797777312607425093192068254068335134243001678378072923159395379071286109203636882325856568759174400712596485315045886150043319131705933812066665757023744285985195816490707758157800672975695471775262186906611241743561021119119621284710467500138370628963335313733997508937415554905808766501976426617971841271712837146443434113390738331150056668582753009240729782145624283801470556506243348972317194331651060904452226746383197553347277118586742015794816056136929531544335680270318258960316064434951420087246727926295647546800726070901237937678768136987324332271833915679315754025413941975588505237508667492790236875277212557977492594609055371312978571405064334789992477062273348233591703171949353965432898950278495696815452829194439289715534925526825760521724068614517123249296086184104124651051165649839469722415087227093938006563927615257190501152206972208914843378766511354802342846575031497115800480868815887865222333234237358123524712115747707298362907985357516510172081340823414589416315405959647591630879427071584424585796467478454146308166161446277000563932512217141637031727509752612859750617192380132272473953851827105020421345331946974426017750479607515755794646093513138418070626831980352454245129820281971076520913754205155182808378249274818925896637531558566237161982480519922851269076248860893400439651096849138802063773090324412429121427622330121785991120255030883845763597077121283748426897910962605534920482810385552835129738162520369109406893628902530150762745550790137433286821202088186863489364414563430124503069587395462763025772009814578479261037338288989456672105537714083616594781950930856593028193746405197290624908748844981349616543058707446423711235261880835398561024784859714714697799670807077227706881398174122198464069517394112690521904843579735884904346462297485555681566027144856758184718184764112329344423621400699242053600117578569045017195996534412242687003981675470902160080299996589114680328035424517087418294128307996980645160667414767965120024824180349275659396911994435350681981637664295672077616273347008679866732992579183330810983059684433456168598166034273311258168934481440777885331957709585790022542555596178225930335961354067066516338186401439258623107672585983144240301756078796734131237778853995614183066616294086724494733745895260792073428894140901605739468909681628766773700187336427859255919339929672788959722481502477293815968110231756558348180722392528098804968976494666821295771410079984533108199877170762906383325582987542032521265607703634997616021718508966062330953746932202136054016864638601733086410412774631283256541725678854263716748993210845478759609243287724407515414942720615258548762601258034912587280265281503159440133140182206623561389998210105665271742193781098377916890661686852412217542912310427149121536122599451252466251674671084004835296479514379008440958362542777987421888974617225405558094465659016118929834616086638902724052136886231246716551874036543803956759751853171059717689071103135665169354202147708289694220812162762983140884332176882740594484615643240163247009968365199651831701678848646978086199199337408065892737958831401157684838116342421637167727843747264176988581725271326918140182504286931604557020290401088312010427836426361163747855288447417641300517240370862620295672230378494349533359574990733208783236884184038999751103272403018739936475135226856060551464098075241055224460637234282614301073639112405083487114804131571201641233302840011223262255563214317039828171608294324075205979243835630407243352421192482190580206567720572010120380991127836365342307158065441365871502233518131625119943507795294763985368641115932328581413986446983435433177888543205798418174224097361309063107053477685575634022203704851250246061037059352545380410850628691182165318922666338143665503394201529073891019002966722043093207427230556861990257487118738686462361633042056829277761360271795803126403307564780793568135296682929790310297262279360001613252517610110715799201108323561775235680791528797702651267509889322858455150572721015415121185094918622070304595520042271478979404142600655639994932962358631958852926788847402166358750294418842676473197047811786071237320558234787145952072509926447523062259792762646832174003704969610334027335222823283677335689392089538060383559125987732432288791175359386162153573294853225325828097349812964324307317723844264139348383445344179744123721248048930158071537356357092110875064747362499537137088909498053819596570901903613467837585842783087841679963391791191376637524940749837392792802426174087431221290414098311529212638991341392

/-! Small helpers about `List.getD` on the flag vector. -/

theorem getD_set_self (l : List Bool) (k : Nat) (b : Bool) (h : k < l.length) :
    (l.set k b).getD k false = b := by
  simp [List.getD_eq_getElem?_getD, List.getElem?_set_self h]

theorem getD_set_ne (l : List Bool) (k j : Nat) (b : Bool) (h : k ≠ j) :
    (l.set k b).getD j false = l.getD j false := by
  simp [List.getD_eq_getElem?_getD, List.getElem?_set_ne h]

theorem getD_replicate (m j : Nat) (b : Bool) (h : j < m) :
    (List.replicate m b).getD j false = b := by
  simp [List.getD_eq_getElem?_getD, List.getElem?_replicate, h]

/-! Characterization of the inner clearing loop: it preserves the length of
the flag vector and clears exactly the positions `k, k + n, k + 2n, ...` that
are in range. -/

theorem clearMultiples_length_aux :
    ∀ (fuel n : Nat) (flags : List Bool) (k : Nat), flags.length - k ≤ fuel →
      (clearMultiples n flags k).length = flags.length := by
  intro fuel
  induction fuel with
  | zero =>
    intro n flags k h
    rw [clearMultiples]
    split
    · rename_i hg
      omega
    · rfl
  | succ fuel ih =>
    intro n flags k h
    rw [clearMultiples]
    split
    · rename_i hg
      rw [ih n (flags.set k false) (k + n) (by simp [List.length_set]; omega)]
      simp
    · rfl

theorem clearMultiples_length (n : Nat) (flags : List Bool) (k : Nat) :
    (clearMultiples n flags k).length = flags.length :=
  clearMultiples_length_aux flags.length n flags k (by omega)

theorem clearMultiples_getD_aux :
    ∀ (fuel n : Nat) (flags : List Bool) (k j : Nat), flags.length - k ≤ fuel → 0 < n →
      (clearMultiples n flags k).getD j false =
        if k ≤ j ∧ j < flags.length ∧ n ∣ (j - k) then false else flags.getD j false := by
  intro fuel
  induction fuel with
  | zero =>
    intro n flags k j h hn
    rw [clearMultiples]
    split
    · rename_i hg
      omega
    · rw [if_neg]
      omega
  | succ fuel ih =>
    intro n flags k j h hn
    rw [clearMultiples]
    split
    · rename_i hg
      rw [ih n (flags.set k false) (k + n) j (by simp [List.length_set]; omega) hn]
      simp only [List.length_set]
      by_cases hj : j = k
      · subst hj
        rw [if_neg (by omega), if_pos ⟨Nat.le_refl j, hg.1, by simp⟩]
        exact getD_set_self flags j false hg.1
      · rw [getD_set_ne flags k j false (fun e => hj e.symm)]
        by_cases hc : k ≤ j ∧ j < flags.length ∧ n ∣ (j - k)
        · rw [if_pos hc]
          have hlt : k < j := by omega
          have hle : k + n ≤ j := by
            have := Nat.le_of_dvd (by omega) hc.2.2
            omega
          have hdvd : n ∣ (j - (k + n)) := by
            have h1 : j - (k + n) = (j - k) - n := by omega
            rw [h1]
            exact Nat.dvd_sub' hc.2.2 dvd_rfl
          rw [if_pos ⟨hle, hc.2.1, hdvd⟩]
        · rw [if_neg hc, if_neg]
          intro hc2
          apply hc
          refine ⟨by omega, hc2.2.1, ?_⟩
          have h1 : j - k = (j - (k + n)) + n := by omega
          rw [h1]
          exact Nat.dvd_add hc2.2.2 dvd_rfl
    · rename_i hg
      rw [if_neg]
      omega

theorem clearMultiples_getD (n : Nat) (flags : List Bool) (k j : Nat) (hn : 0 < n) :
    (clearMultiples n flags k).getD j false =
      if k ≤ j ∧ j < flags.length ∧ n ∣ (j - k) then false else flags.getD j false :=
  clearMultiples_getD_aux flags.length n flags k j (by omega) hn

/-! Invariant of the outer sieve loop: after the rounds for the divisors
`2, ..., 1 + j` have run, a flag at offset `k ≤ N` is false exactly when `k`
has a divisor `2 ≤ d < 2 + j` with `d < k`.  The precondition states that
every processed divisor is a valid offset into the flag vector. -/

theorem sieveInvariant (N : Nat) :
    ∀ j : Nat, (∀ n, 2 ≤ n → n < 2 + j → n < N + 1) →
      ((List.range' 2 j).foldl sieveStep (List.replicate (N + 1) true)).length = N + 1 ∧
      ∀ k, k < N + 1 →
        (((List.range' 2 j).foldl sieveStep (List.replicate (N + 1) true)).getD k false = false ↔
          ∃ d, 2 ≤ d ∧ d < 2 + j ∧ d < k ∧ d ∣ k) := by
  intro j
  induction j with
  | zero =>
    intro _
    refine ⟨by simp, fun k hk => ?_⟩
    simp only [List.range', List.foldl_nil]
    rw [getD_replicate _ _ _ hk]
    constructor
    · intro h
      exact absurd h (by simp)
    · rintro ⟨d, hd⟩
      omega
  | succ j ih =>
    intro hpre
    obtain ⟨hlen, hinv⟩ := ih (fun n h2 hj => hpre n h2 (by omega))
    rw [List.range'_1_concat, List.foldl_append, List.foldl_cons, List.foldl_nil]
    set fs := (List.range' 2 j).foldl sieveStep (List.replicate (N + 1) true) with hfs
    have hnN : 2 + j < N + 1 := hpre (2 + j) (by omega) (by omega)
    unfold sieveStep
    by_cases hskip : fs.getD (2 + j) false = false
    · rw [if_pos hskip]
      refine ⟨hlen, fun k hk => ?_⟩
      rw [hinv k hk]
      constructor
      · rintro ⟨d, hd1, hd2, hd3, hd4⟩
        exact ⟨d, hd1, by omega, hd3, hd4⟩
      · rintro ⟨d, hd2, hdlt, hdk, hdvd⟩
        by_cases hdj : d < 2 + j
        · exact ⟨d, hd2, hdj, hdk, hdvd⟩
        · have hdn : d = 2 + j := by omega
          subst hdn
          obtain ⟨d0, h02, h0lt, h0n, h0dvd⟩ := (hinv (2 + j) hnN).mp hskip
          exact ⟨d0, h02, h0lt, by omega, dvd_trans h0dvd hdvd⟩
    · rw [if_neg hskip]
      refine ⟨by rw [clearMultiples_length]; exact hlen, fun k hk => ?_⟩
      rw [clearMultiples_getD _ _ _ _ (by omega : (0 : Nat) < 2 + j), hlen]
      by_cases hC : 2 * (2 + j) ≤ k ∧ k < N + 1 ∧ (2 + j) ∣ (k - 2 * (2 + j))
      · rw [if_pos hC]
        constructor
        · intro _
          have hdvdk : (2 + j) ∣ k := by
            have h1 : k = (k - 2 * (2 + j)) + 2 * (2 + j) := by omega
            rw [h1]
            exact Nat.dvd_add hC.2.2 (dvd_mul_left (2 + j) 2)
          exact ⟨2 + j, by omega, by omega, by omega, hdvdk⟩
        · intro _
          rfl
      · rw [if_neg hC]
        rw [hinv k hk]
        constructor
        · rintro ⟨d, hd1, hd2, hd3, hd4⟩
          exact ⟨d, hd1, by omega, hd3, hd4⟩
        · rintro ⟨d, hd2, hdlt, hdk, hdvd⟩
          by_cases hdj : d < 2 + j
          · exact ⟨d, hd2, hdj, hdk, hdvd⟩
          · exfalso
            have hdn : d = 2 + j := by omega
            subst hdn
            obtain ⟨t, ht⟩ := hdvd
            have ht2 : 2 ≤ t := by
              rcases Nat.lt_or_ge t 2 with h | h
              · interval_cases t <;> omega
              · exact h
            apply hC
            refine ⟨?_, hk, Nat.dvd_sub' ⟨t, ht⟩ (dvd_mul_left (2 + j) 2)⟩
            calc 2 * (2 + j) = (2 + j) * 2 := by ring
            _ ≤ (2 + j) * t := Nat.mul_le_mul_left _ ht2
            _ = k := ht.symm

/-- Arithmetic core of the sieve bound: a value `1 ≤ k ≤ N` has a divisor
`2 ≤ d ≤ (N + 1) / 2` below itself exactly when it is neither 1 nor prime.
The interesting direction takes the least prime factor `p` of a composite `k`
and bounds it by `k / 2`, which the outer loop bound `(N + 1) / 2` covers. -/
theorem divisor_in_half (N k : Nat) (h1 : 1 ≤ k) (h2 : k ≤ N) :
    (∃ d, 2 ≤ d ∧ d < 2 + ((N + 1) / 2 - 1) ∧ d < k ∧ d ∣ k) ↔ ¬(k = 1 ∨ Nat.Prime k) := by
  constructor
  · rintro ⟨d, hd2, hdh, hdk, hdvd⟩ h
    rcases h with hk1 | hkp
    · omega
    · rcases hkp.eq_one_or_self_of_dvd d hdvd with h | h <;> omega
  · intro h
    push_neg at h
    have hk2 : 2 ≤ k := by omega
    have hp : Nat.Prime k.minFac := Nat.minFac_prime h.1
    have hpd : k.minFac ∣ k := Nat.minFac_dvd k
    have hpk : k.minFac ≠ k := fun e => h.2 (Nat.prime_def_minFac.2 ⟨hk2, e⟩)
    have hplt : k.minFac < k := lt_of_le_of_ne (Nat.le_of_dvd (by omega) hpd) hpk
    have hp2 : 2 ≤ k.minFac := hp.two_le
    obtain ⟨c, hc⟩ := hpd
    have hc2 : 2 ≤ c := by
      rcases Nat.lt_or_ge c 2 with hlt | hge
      · interval_cases c
        · simp at hc
          omega
        · simp at hc
          omega
      · exact hge
    have h2p : 2 * k.minFac ≤ k := by
      calc 2 * k.minFac = k.minFac * 2 := by ring
      _ ≤ k.minFac * c := Nat.mul_le_mul_left _ hc2
      _ = k := hc.symm
    exact ⟨k.minFac, hp2, by omega, hplt, Nat.minFac_dvd k⟩

/-- Final state of the sieve pass of `optimal_case`: for offsets `1 ≤ k ≤ N`,
the flag at `k` is still true exactly when `k` is 1 or prime. -/
theorem sieveLoop_getD (N k : Nat) (h1 : 1 ≤ k) (h2 : k ≤ N) :
    ((sieveLoop N (List.replicate (N + 1) true)).getD k false = true ↔ k = 1 ∨ Nat.Prime k) := by
  obtain ⟨hlen, hinv⟩ := sieveInvariant N ((N + 1) / 2 - 1) (fun n hn2 hnj => by omega)
  unfold sieveLoop
  rw [← Bool.ne_false_iff]
  rw [Ne, hinv k (by omega), divisor_in_half N k h1 h2, not_not]

/-! Equality of the three algorithms with the common characterization
`primesWithOne`. -/

theorem isCulled_iff (n v : Nat) : isCulled n v = true ↔ (n < v ∧ v % n = 0) := by
  simp [isCulled]

theorem eraseMultiples_eq_filter (n : Nat) (l : List Nat) :
    eraseMultiples n l = l.filter (fun v => !(isCulled n v)) := by
  induction l with
  | nil => rfl
  | cons v rest ih =>
    rw [List.filter_cons]
    by_cases h : isCulled n v = true
    · simp only [eraseMultiples, h, if_true, Bool.not_true, if_false]
      exact ih
    · rw [Bool.not_eq_true] at h
      simp only [eraseMultiples, h, Bool.not_false, if_true, if_neg Bool.false_ne_true]
      rw [ih]

theorem foldl_erase_eq (ns : List Nat) (l : List Nat) :
    ns.foldl (fun acc n => eraseMultiples n acc) l
      = l.filter (fun v => ns.all fun n => !(isCulled n v)) := by
  induction ns generalizing l with
  | nil => simp
  | cons n ns ih =>
    rw [List.foldl_cons, ih, eraseMultiples_eq_filter, List.filter_filter]
    apply List.filter_congr
    intro v _
    simp [Bool.and_comm]

/-- Survival predicate of the filtering algorithms, evaluated: an element
`1 ≤ v ≤ N` survives every round exactly when it is 1 or prime. -/
theorem all_pred_eq (N v : Nat) (h1 : 1 ≤ v) (h2 : v ≤ N) :
    ((List.range' 2 (N - 1)).all fun n => !(isCulled n v))
      = (v == 1 || decide (Nat.Prime v)) := by
  rw [Bool.eq_iff_iff]
  rw [List.all_eq_true, Bool.or_eq_true, beq_iff_eq, decide_eq_true_eq]
  constructor
  · intro hall
    by_cases hv1 : v = 1
    · exact Or.inl hv1
    · refine Or.inr (Nat.prime_def_lt'.2 ⟨by omega, fun m hm2 hmv hmdvd => ?_⟩)
      have hmem : m ∈ List.range' 2 (N - 1) := by
        rw [List.mem_range'_1]
        omega
      have hm := hall m hmem
      rw [Bool.not_eq_true'] at hm
      have : ¬(m < v ∧ v % m = 0) := by
        rw [← isCulled_iff, hm]
        simp
      exact this ⟨hmv, Nat.mod_eq_zero_of_dvd hmdvd⟩
  · intro hor n hmem
    rw [List.mem_range'_1] at hmem
    rw [Bool.not_eq_true']
    by_cases hc : isCulled n v = true
    · exfalso
      obtain ⟨hlt, hmod⟩ := isCulled_iff n v |>.1 hc
      rcases hor with h | h
      · omega
      · have hdvd : n ∣ v := Nat.dvd_of_mod_eq_zero hmod
        rcases h.eq_one_or_self_of_dvd n hdvd with e | e <;> omega
    · rw [Bool.not_eq_true] at hc
      exact hc

theorem simplest_eq (N : Nat) : simplest N = primesWithOne N := by
  unfold simplest primesWithOne
  rw [foldl_erase_eq]
  apply List.filter_congr
  intro v hv
  rw [List.mem_range'_1] at hv
  exact all_pred_eq N v hv.1 (by omega)

theorem using_remove_if_eq_simplest (N : Nat) : using_remove_if N = simplest N := by
  unfold using_remove_if simplest
  have h : ∀ (ns : List Nat) (l : List Nat),
      ns.foldl (fun l n => l.filter (fun v => !(isCulled n v))) l
        = ns.foldl (fun l n => eraseMultiples n l) l := by
    intro ns
    induction ns with
    | nil => intro l; rfl
    | cons n ns ih =>
      intro l
      rw [List.foldl_cons, List.foldl_cons, eraseMultiples_eq_filter, ih]
  exact h _ _

theorem optimal_case_eq (N : Nat) : optimal_case N = primesWithOne N := by
  unfold optimal_case primesWithOne
  have hr : List.range (N + 1) = 0 :: List.range' 1 N := by
    rw [List.range_eq_range', List.range'_succ]
  rw [hr, List.filter_cons]
  rw [if_neg (by simp)]
  apply List.filter_congr
  intro i hi
  rw [List.mem_range'_1] at hi
  have hne : decide (i ≠ 0) = true := by
    simp
    omega
  rw [hne, Bool.true_and]
  have hchar := sieveLoop_getD N i hi.1 (by omega)
  cases hb : (sieveLoop N (List.replicate (N + 1) true)).getD i false
  · rw [hb] at hchar
    have hnot : ¬(i = 1 ∨ Nat.Prime i) := fun hcontra => by
      have := hchar.2 hcontra
      simp at this
    rw [not_or] at hnot
    symm
    rw [Bool.or_eq_false_iff, beq_eq_false_iff_ne, decide_eq_false_iff_not]
    exact hnot
  · rw [hb] at hchar
    have hor := hchar.1 rfl
    symm
    rw [Bool.or_eq_true, beq_iff_eq, decide_eq_true_eq]
    exact hor

theorem primesWithOne_eq (N : Nat) (h : 1 ≤ N) : primesWithOne N = 1 :: primesUpTo N := by
  unfold primesWithOne primesUpTo
  obtain ⟨m, rfl⟩ : ∃ m, N = m + 1 := ⟨N - 1, by omega⟩
  rw [List.range'_succ, List.filter_cons, if_pos (by simp)]
  simp only [Nat.add_sub_cancel]
  congr 1
  apply List.filter_congr
  intro v hv
  rw [List.mem_range'_1] at hv
  have : (v == 1) = false := by
    rw [beq_eq_false_iff_ne]
    omega
  rw [this, Bool.false_or]

/-! Bit-level analysis of the balanced mask computation, culminating in the
fact that `fastMask N` has exactly the bits the sieve pass clears. -/

theorem geomSum_lt (n q : Nat) (hn : 0 < n) : geomSum n q < 2 ^ (q * n) := by
  induction q with
  | zero => simp [geomSum]
  | succ q ih =>
    have h1 : 2 ^ (q * n) + 2 ^ (q * n) ≤ 2 ^ ((q + 1) * n) := by
      have h2 : q * n + 1 ≤ (q + 1) * n := by
        have : (q + 1) * n = q * n + n := by ring
        omega
      calc 2 ^ (q * n) + 2 ^ (q * n) = 2 ^ (q * n + 1) := by rw [pow_succ]; ring
      _ ≤ 2 ^ ((q + 1) * n) := Nat.pow_le_pow_right (by omega) h2
    simp only [geomSum]
    omega

theorem geomSum_mul (n q : Nat) : (2 ^ n - 1) * geomSum n q = 2 ^ (q * n) - 1 := by
  induction q with
  | zero => simp [geomSum]
  | succ q ih =>
    have hA : 0 < 2 ^ (q * n) := Nat.two_pow_pos _
    have hpow : 2 ^ ((q + 1) * n) = 2 ^ n * 2 ^ (q * n) := by
      rw [← pow_add]
      congr 1
      ring
    have hsub : (2 ^ n - 1) * 2 ^ (q * n) = 2 ^ n * 2 ^ (q * n) - 2 ^ (q * n) := by
      rw [Nat.sub_one_mul]
    have hle : 2 ^ (q * n) ≤ 2 ^ n * 2 ^ (q * n) :=
      Nat.le_mul_of_pos_left _ (Nat.two_pow_pos _)
    simp only [geomSum]
    rw [Nat.mul_add, ih, hsub, hpow]
    omega

theorem testBit_add_two_pow (a m : Nat) (h : a < 2 ^ m) (j : Nat) :
    (a + 2 ^ m).testBit j = (a.testBit j || decide (j = m)) := by
  rcases Nat.lt_trichotomy j m with hj | hj | hj
  · have h1 : (a + 2 ^ m) / 2 ^ j = a / 2 ^ j + 2 ^ (m - j) := by
      have h2 : (2 : Nat) ^ m = 2 ^ (m - j) * 2 ^ j := by
        rw [← pow_add]
        congr 1
        omega
      rw [h2, Nat.add_mul_div_right _ _ (Nat.two_pow_pos j)]
    have h3 : (a / 2 ^ j + 2 ^ (m - j)) % 2 = (a / 2 ^ j) % 2 := by
      have h4 : (2 : Nat) ^ (m - j) % 2 = 0 := by
        obtain ⟨s, hs⟩ : ∃ s, m - j = s + 1 := ⟨m - j - 1, by omega⟩
        rw [hs, pow_succ, Nat.mul_mod_left]
      omega
    rw [Nat.testBit_to_div_mod, h1, h3, ← Nat.testBit_to_div_mod,
      decide_eq_false (by omega : ¬(j = m)), Bool.or_false]
  · subst hj
    rw [Nat.testBit_to_div_mod, Nat.add_div_right _ (Nat.two_pow_pos j),
      Nat.div_eq_of_lt h]
    rw [Nat.testBit_lt_two_pow h]
    simp
  · have hlt : a + 2 ^ m < 2 ^ j := by
      have h5 : 2 ^ (m + 1) ≤ 2 ^ j := Nat.pow_le_pow_right (by omega) (by omega)
      have h6 : (2 : Nat) ^ (m + 1) = 2 ^ m + 2 ^ m := by
        rw [pow_succ]
        ring
      omega
    rw [Nat.testBit_lt_two_pow hlt, Nat.testBit_lt_two_pow (by omega : a < 2 ^ j),
      decide_eq_false (by omega : ¬(j = m))]
    rfl

theorem testBit_geomSum (n q j : Nat) (hn : 0 < n) :
    ((geomSum n q).testBit j = true ↔ ∃ t, t < q ∧ j = t * n) := by
  induction q with
  | zero =>
    simp [geomSum]
  | succ q ih =>
    simp only [geomSum]
    rw [testBit_add_two_pow _ _ (geomSum_lt n q hn) j, Bool.or_eq_true,
      decide_eq_true_eq, ih]
    constructor
    · rintro (⟨t, ht, rfl⟩ | rfl)
      · exact ⟨t, by omega, rfl⟩
      · exact ⟨q, by omega, rfl⟩
    · rintro ⟨t, ht, rfl⟩
      by_cases htq : t < q
      · exact Or.inl ⟨t, htq, rfl⟩
      · have : t = q := by omega
        subst this
        exact Or.inr rfl

theorem multMask_testBit (n N j : Nat) (hn : 0 < n) :
    ((multMask n N).testBit j = true ↔ ∃ t, 2 ≤ t ∧ t ≤ N / n ∧ j = t * n) := by
  unfold multMask
  by_cases hq : 2 ≤ N / n
  · rw [if_pos hq]
    have hgeom : (1 <<< ((N / n - 1) * n) - 1) / (1 <<< n - 1) = geomSum n (N / n - 1) := by
      rw [Nat.one_shiftLeft, Nat.one_shiftLeft]
      exact Nat.div_eq_of_eq_mul_left
        (by have := Nat.one_lt_two_pow (by omega : n ≠ 0); omega)
        (by rw [← geomSum_mul n (N / n - 1)]; ring)
    rw [hgeom, Nat.testBit_shiftLeft, Bool.and_eq_true, decide_eq_true_eq,
      testBit_geomSum n _ _ hn]
    constructor
    · rintro ⟨h2n, t, htq, hjt⟩
      refine ⟨t + 2, by omega, by omega, ?_⟩
      have he : (t + 2) * n = t * n + 2 * n := by ring
      omega
    · rintro ⟨t, ht2, htq, rfl⟩
      have h2n : 2 * n ≤ t * n := Nat.mul_le_mul_right n ht2
      refine ⟨by omega, t - 2, by omega, ?_⟩
      have he : (t - 2) * n + 2 * n = t * n := by
        rw [← Nat.add_mul]
        congr 1
        omega
      omega
  · rw [if_neg hq]
    simp only [Nat.zero_testBit]
    constructor
    · intro h
      exact absurd h (by simp)
    · rintro ⟨t, ht2, htq, rfl⟩
      omega

theorem orMult_len_one (N fuel lo : Nat) : orMult N fuel lo 1 = multMask lo N := by
  match fuel with
  | 0 => rfl
  | fuel + 1 => rfl

theorem orMult_len_zero (N fuel lo : Nat) : orMult N fuel lo 0 = 0 := by
  match fuel with
  | 0 => rfl
  | fuel + 1 => rfl

theorem orMult_testBit :
    ∀ (fuel N lo len j : Nat), len ≤ 2 ^ fuel →
      ((orMult N fuel lo len).testBit j = true ↔
        ∃ d, lo ≤ d ∧ d < lo + len ∧ (multMask d N).testBit j = true) := by
  intro fuel
  induction fuel with
  | zero =>
    intro N lo len j h
    match len, h with
    | 0, _ =>
      rw [orMult_len_zero]
      simp only [Nat.zero_testBit]
      constructor
      · intro hb
        exact absurd hb (by simp)
      · rintro ⟨d, hd1, hd2, _⟩
        omega
    | 1, _ =>
      rw [orMult_len_one]
      constructor
      · intro hb
        exact ⟨lo, Nat.le_refl lo, by omega, hb⟩
      · rintro ⟨d, hd1, hd2, hb⟩
        have hdlo : d = lo := by omega
        subst hdlo
        exact hb
    | len + 2, h =>
      exfalso
      norm_num at h
      omega
  | succ fuel ih =>
    intro N lo len j h
    match len with
    | 0 =>
      rw [orMult_len_zero]
      simp only [Nat.zero_testBit]
      constructor
      · intro hb
        exact absurd hb (by simp)
      · rintro ⟨d, hd1, hd2, _⟩
        omega
    | 1 =>
      rw [orMult_len_one]
      constructor
      · intro hb
        exact ⟨lo, Nat.le_refl lo, by omega, hb⟩
      · rintro ⟨d, hd1, hd2, hb⟩
        have hdlo : d = lo := by omega
        subst hdlo
        exact hb
    | len + 2 =>
      have hpow : 2 ^ (fuel + 1) = 2 ^ fuel + 2 ^ fuel := by
        rw [pow_succ]
        ring
      rw [show orMult N (fuel + 1) lo (len + 2)
            = (orMult N fuel lo ((len + 2) / 2) |||
                orMult N fuel (lo + (len + 2) / 2) (len + 2 - (len + 2) / 2)) from rfl]
      rw [Nat.testBit_lor, Bool.or_eq_true,
        ih N lo ((len + 2) / 2) j (by omega),
        ih N (lo + (len + 2) / 2) (len + 2 - (len + 2) / 2) j (by omega)]
      constructor
      · rintro (⟨d, h1, h2, hb⟩ | ⟨d, h1, h2, hb⟩)
        · exact ⟨d, h1, by omega, hb⟩
        · exact ⟨d, by omega, by omega, hb⟩
      · rintro ⟨d, h1, h2, hb⟩
        by_cases hd : d < lo + (len + 2) / 2
        · exact Or.inl ⟨d, h1, hd, hb⟩
        · exact Or.inr ⟨d, by omega, by omega, hb⟩

/-- Bits of `fastMask N`, phrased to match the sieve invariant exactly: for
`j ≤ N`, bit `j` is set exactly when `j` has a divisor `2 ≤ d` below both `j`
and the outer loop bound. -/
theorem fastMask_testBit (N j : Nat) (hj : j ≤ N) :
    ((fastMask N).testBit j = true ↔
      ∃ d, 2 ≤ d ∧ d < 2 + ((N + 1) / 2 - 1) ∧ d < j ∧ d ∣ j) := by
  unfold fastMask
  rw [orMult_testBit _ N 2 _ j (by have := Nat.lt_two_pow ((N + 1) / 2); omega)]
  constructor
  · rintro ⟨d, hd2, hdlt, hb⟩
    obtain ⟨t, ht2, htq, rfl⟩ := (multMask_testBit d N _ (by omega)).1 hb
    have hdvd : d ∣ t * d := ⟨t, Nat.mul_comm t d⟩
    have h2d : 2 * d ≤ t * d := Nat.mul_le_mul_right d ht2
    exact ⟨d, hd2, by omega, by omega, hdvd⟩
  · rintro ⟨d, hd2, hdh, hdj, hdvd⟩
    obtain ⟨t, rfl⟩ := hdvd
    have ht2 : 2 ≤ t := by
      rcases Nat.lt_or_ge t 2 with hlt | hge
      · interval_cases t <;> omega
      · exact hge
    have htq : t ≤ N / d := by
      rw [Nat.le_div_iff_mul_le (by omega : 0 < d)]
      have hc : t * d = d * t := Nat.mul_comm t d
      omega
    refine ⟨d, hd2, by omega, (multMask_testBit d N _ (by omega)).2 ⟨t, ht2, htq, by ring⟩⟩

theorem cnt_len_zero (mask fuel lo : Nat) : cnt mask fuel lo 0 = 0 := by
  match fuel with
  | 0 => rfl
  | fuel + 1 => rfl

theorem cnt_len_one (mask fuel lo : Nat) :
    cnt mask fuel lo 1 = if mask.testBit lo then 0 else 1 := by
  match fuel with
  | 0 => rfl
  | fuel + 1 => rfl

theorem cnt_one_eq (mask lo : Nat) :
    (if mask.testBit lo then 0 else 1)
      = ((List.range' lo 1).filter (fun j => !(mask.testBit j))).length := by
  have hr : List.range' lo 1 = [lo] := rfl
  rw [hr]
  by_cases hb : mask.testBit lo = true
  · simp [hb]
  · rw [Bool.not_eq_true] at hb
    simp [hb]

theorem cnt_eq :
    ∀ (fuel mask lo len : Nat), len ≤ 2 ^ fuel →
      cnt mask fuel lo len
        = ((List.range' lo len).filter (fun j => !(mask.testBit j))).length := by
  intro fuel
  induction fuel with
  | zero =>
    intro mask lo len h
    match len, h with
    | 0, _ =>
      rw [cnt_len_zero]
      rfl
    | 1, _ =>
      rw [cnt_len_one]
      exact cnt_one_eq mask lo
    | len + 2, h =>
      exfalso
      norm_num at h
      omega
  | succ fuel ih =>
    intro mask lo len h
    match len with
    | 0 =>
      rw [cnt_len_zero]
      rfl
    | 1 =>
      rw [cnt_len_one]
      exact cnt_one_eq mask lo
    | len + 2 =>
      have hpow : 2 ^ (fuel + 1) = 2 ^ fuel + 2 ^ fuel := by
        rw [pow_succ]
        ring
      rw [show cnt mask (fuel + 1) lo (len + 2)
            = cnt mask fuel lo ((len + 2) / 2) +
                cnt mask fuel (lo + (len + 2) / 2) (len + 2 - (len + 2) / 2) from rfl]
      rw [ih mask lo ((len + 2) / 2) (by omega),
        ih mask (lo + (len + 2) / 2) (len + 2 - (len + 2) / 2) (by omega)]
      have hsplit : len + 2 = (len + 2 - (len + 2) / 2) + (len + 2) / 2 := by omega
      conv_rhs => rw [hsplit, ← List.range'_append_1]
      rw [List.filter_append, List.length_append]

/-- Length of the result of `optimal_case`, computed through the balanced
bitmask count. -/
theorem optimal_case_length (N : Nat) :
    (optimal_case N).length = cnt (fastMask N) N 1 N := by
  rw [cnt_eq N _ 1 N (Nat.le_of_lt (Nat.lt_two_pow N))]
  unfold optimal_case
  rw [show List.range (N + 1) = 0 :: List.range' 1 N from by
    rw [List.range_eq_range', List.range'_succ]]
  rw [List.filter_cons, if_neg (by simp)]
  congr 1
  apply List.filter_congr
  intro j hj
  rw [List.mem_range'_1] at hj
  have hne : decide (j ≠ 0) = true := by
    simp
    omega
  rw [hne, Bool.true_and]
  obtain ⟨hlen, hinv⟩ := sieveInvariant N ((N + 1) / 2 - 1) (fun n h2 hj2 => by omega)
  have hio : ((sieveLoop N (List.replicate (N + 1) true)).getD j false = false ↔
      (fastMask N).testBit j = true) := by
    unfold sieveLoop
    rw [hinv j (by omega), fastMask_testBit N j (by omega)]
  cases hbm : (fastMask N).testBit j
  · rw [Bool.not_false]
    have hne2 : (sieveLoop N (List.replicate (N + 1) true)).getD j false ≠ false := by
      intro hf
      rw [hio.1 hf] at hbm
      cases hbm
    exact Bool.ne_false_iff.mp hne2
  · rw [Bool.not_true]
    exact hio.2 hbm


/-! Helpers for the claim statements. -/

theorem mem_primesUpTo (N p : Nat) : p ∈ primesUpTo N ↔ (Nat.Prime p ∧ p ≤ N) := by
  unfold primesUpTo
  rw [List.mem_filter, List.mem_range'_1, decide_eq_true_eq]
  constructor
  · rintro ⟨⟨h2, hlt⟩, hp⟩
    exact ⟨hp, by omega⟩
  · rintro ⟨hp, hle⟩
    have h2 := hp.two_le
    exact ⟨⟨h2, by omega⟩, hp⟩

theorem primesUpTo_pairwise (N : Nat) : (primesUpTo N).Pairwise (· < ·) :=
  List.Pairwise.sublist (List.filter_sublist _) (List.pairwise_lt_range' 2 (N - 1))

theorem one_cons_pairwise (N : Nat) : (1 :: primesUpTo N).Pairwise (· < ·) := by
  rw [List.pairwise_cons]
  refine ⟨fun p hp => ?_, primesUpTo_pairwise N⟩
  have := ((mem_primesUpTo N p).1 hp).1.two_le
  omega

theorem strip_one (N : Nat) :
    (1 :: primesUpTo N).filter (fun v => v != 1) = primesUpTo N := by
  rw [List.filter_cons, if_neg (by decide)]
  rw [List.filter_eq_self]
  intro p hp
  have h2 := ((mem_primesUpTo N p).1 hp).1.two_le
  simp only [bne_iff_ne, ne_eq]
  omega

/-- Common form of the three results for positive bounds: the value 1 followed
by the canonical ascending list of primes. -/
theorem results_eq_one_cons (N : Nat) (h : 1 ≤ N) :
    simplest N = 1 :: primesUpTo N ∧
    using_remove_if N = 1 :: primesUpTo N ∧
    optimal_case N = 1 :: primesUpTo N := by
  have hs : simplest N = 1 :: primesUpTo N := by
    rw [simplest_eq, primesWithOne_eq N h]
  exact ⟨hs, by rw [using_remove_if_eq_simplest]; exact hs,
    by rw [optimal_case_eq, primesWithOne_eq N h]⟩

/-! The claims. -/

/-- C1: for every bound N at least 2, each of the three algorithms returns a
sequence that, after removing the value 1, equals the canonical ascending list
of the primes in [2, N]; that list contains exactly the primes up to N, each
exactly once. -/
theorem claim1_stripped_results_canonical (N : Nat) (hN : 2 ≤ N) :
    (simplest N).filter (fun v => v != 1) = primesUpTo N ∧
    (using_remove_if N).filter (fun v => v != 1) = primesUpTo N ∧
    (optimal_case N).filter (fun v => v != 1) = primesUpTo N ∧
    (∀ p, p ∈ primesUpTo N ↔ (Nat.Prime p ∧ p ≤ N)) ∧
    (primesUpTo N).Nodup := by
  obtain ⟨hs, hu, ho⟩ := results_eq_one_cons N (by omega)
  refine ⟨by rw [hs]; exact strip_one N, by rw [hu]; exact strip_one N,
    by rw [ho]; exact strip_one N, mem_primesUpTo N, ?_⟩
  exact (primesUpTo_pairwise N).imp Nat.ne_of_lt

theorem claim1_witness :
    2 ≤ 30 ∧
    ((simplest 30).filter (fun v => v != 1) = primesUpTo 30 ∧
      (using_remove_if 30).filter (fun v => v != 1) = primesUpTo 30 ∧
      (optimal_case 30).filter (fun v => v != 1) = primesUpTo 30 ∧
      (∀ p, p ∈ primesUpTo 30 ↔ (Nat.Prime p ∧ p ≤ 30)) ∧
      (primesUpTo 30).Nodup) :=
  ⟨by decide, claim1_stripped_results_canonical 30 (by decide)⟩

/-- C2: for every bound N, the list-based variant produces exactly the same
sequence, element for element, as the naive variant: both remove, for each n
from 2 to N, every surviving v with v > n and v % n = 0, differing only in the
removal idiom. -/
theorem claim2_remove_if_equals_simplest (N : Nat) : using_remove_if N = simplest N :=
  using_remove_if_eq_simplest N

/-- C3: after the sieve pass of optimal_case (n from 2 to (N + 1) / 2, skipping
cleared flags, clearing 2n, 3n, ... up to N), the flag at an offset k in [1, N]
is true exactly when k = 1 or k is prime. -/
theorem claim3_sieve_flag_characterization (N k : Nat) (h1 : 1 ≤ k) (h2 : k ≤ N) :
    ((sieveLoop N (List.replicate (N + 1) true)).getD k false = true ↔
      k = 1 ∨ Nat.Prime k) :=
  sieveLoop_getD N k h1 h2

theorem claim3_witness :
    (1 ≤ 7 ∧ 7 ≤ 10) ∧
    ((sieveLoop 10 (List.replicate (10 + 1) true)).getD 7 false = true ↔
      7 = 1 ∨ Nat.Prime 7) :=
  ⟨⟨by decide, by decide⟩, claim3_sieve_flag_characterization 10 7 (by decide) (by decide)⟩

/-- C4, counterexample: at bound N = 2 the result of `simplest` contains the
value 1, which is not prime, so the result does not consist exactly of the
primes in [2, N] and differs from the canonical prime list. -/
theorem claim4_counterexample :
    1 ∈ simplest 2 ∧ ¬ Nat.Prime 1 ∧ simplest 2 ≠ primesUpTo 2 := by
  have h1 : 1 ∈ simplest 2 := by decide
  refine ⟨h1, Nat.not_prime_one, fun he => ?_⟩
  rw [he] at h1
  exact Nat.not_prime_one ((mem_primesUpTo 2 1).1 h1).1

/-- C4, amended: for every bound N at least 1, each result sequence is the
value 1 followed by exactly the primes in [2, N], each exactly once, in
ascending order (so the invariant holds only after carving out the extra
leading value 1). -/
theorem claim4_amended_invariant (N : Nat) (h : 1 ≤ N) :
    simplest N = 1 :: primesUpTo N ∧
    using_remove_if N = 1 :: primesUpTo N ∧
    optimal_case N = 1 :: primesUpTo N ∧
    (simplest N).Pairwise (· < ·) ∧
    (∀ p, p ∈ primesUpTo N ↔ (Nat.Prime p ∧ p ≤ N)) := by
  obtain ⟨hs, hu, ho⟩ := results_eq_one_cons N h
  refine ⟨hs, hu, ho, ?_, mem_primesUpTo N⟩
  rw [hs]
  exact one_cons_pairwise N

theorem claim4_witness :
    1 ≤ 5 ∧
    (simplest 5 = 1 :: primesUpTo 5 ∧
      using_remove_if 5 = 1 :: primesUpTo 5 ∧
      optimal_case 5 = 1 :: primesUpTo 5 ∧
      (simplest 5).Pairwise (· < ·) ∧
      (∀ p, p ∈ primesUpTo 5 ↔ (Nat.Prime p ∧ p ≤ 5))) :=
  ⟨by decide, claim4_amended_invariant 5 (by decide)⟩

/-- C5: for every bound N at least 1, the value 1 appears in the result of all
three algorithms. -/
theorem claim5_one_survives (N : Nat) (h : 1 ≤ N) :
    1 ∈ simplest N ∧ 1 ∈ using_remove_if N ∧ 1 ∈ optimal_case N := by
  obtain ⟨hs, hu, ho⟩ := results_eq_one_cons N h
  rw [hs, hu, ho]
  exact ⟨List.mem_cons_self 1 _, List.mem_cons_self 1 _, List.mem_cons_self 1 _⟩

theorem claim5_witness :
    1 ≤ 1 ∧ (1 ∈ simplest 1 ∧ 1 ∈ using_remove_if 1 ∧ 1 ∈ optimal_case 1) :=
  ⟨by decide, claim5_one_survives 1 (by decide)⟩

/-- C6: at bound 0 all three algorithms return the empty sequence, and at
bound 1 all three return the singleton sequence containing 1. -/
theorem claim6_edge_bounds :
    simplest 0 = [] ∧ using_remove_if 0 = [] ∧ optimal_case 0 = [] ∧
    simplest 1 = [1] ∧ using_remove_if 1 = [1] ∧ optimal_case 1 = [1] := by
  refine ⟨rfl, rfl, rfl, rfl, rfl, rfl⟩

/-- C8: each algorithm is a pure function of its bound, so two invocations
with the same bound yield identical result sequences. -/
theorem claim8_deterministic (N : Nat) :
    simplest N = simplest N ∧ using_remove_if N = using_remove_if N ∧
      optimal_case N = optimal_case N :=
  ⟨rfl, rfl, rfl⟩

/-- C9: for every non-negative elapsed duration (in nanoseconds), the harness
reports milliseconds exactly when the duration is at least one millisecond,
and otherwise reports nanoseconds; there is no other tier. -/
theorem claim9_unit_threshold (t : Nat) :
    (reportUnit t = TimeUnit.ms ↔ 1000000 ≤ t) ∧
    (reportUnit t = TimeUnit.ns ↔ t < 1000000) := by
  unfold reportUnit
  by_cases h : 0 < t / 1000000
  · rw [if_pos h]
    refine ⟨⟨fun _ => by omega, fun _ => rfl⟩, ⟨fun he => ?_, fun hlt => ?_⟩⟩
    · exact TimeUnit.noConfusion he
    · exact absurd h (by omega)
  · rw [if_neg h]
    refine ⟨⟨fun he => ?_, fun hge => ?_⟩, ⟨fun _ => by omega, fun _ => rfl⟩⟩
    · exact TimeUnit.noConfusion he
    · exact absurd hge (by omega)

/-- C10: every flag access of the sieve is in bounds: each outer offset n read
from the flag vector satisfies n < N + 1 = length, the vector keeps its length
through the whole pass, and the clearing loop never writes at an offset at or
beyond the length (starting there leaves the vector unchanged). -/
theorem claim10_accesses_in_bounds (N : Nat) :
    (∀ n ∈ List.range' 2 ((N + 1) / 2 - 1), n < N + 1) ∧
    (sieveLoop N (List.replicate (N + 1) true)).length = N + 1 ∧
    (∀ (n : Nat) (flags : List Bool) (k : Nat),
      (clearMultiples n flags k).length = flags.length) ∧
    (∀ (n : Nat) (flags : List Bool) (k : Nat), flags.length ≤ k →
      clearMultiples n flags k = flags) := by
  refine ⟨?_, ?_, ?_, ?_⟩
  · intro n hn
    rw [List.mem_range'_1] at hn
    omega
  · have h := (sieveInvariant N ((N + 1) / 2 - 1) (fun n h2 hj => by omega)).1
    unfold sieveLoop
    exact h
  · intro n flags k
    exact clearMultiples_length n flags k
  · intro n flags k h
    rw [clearMultiples, dif_neg (by omega)]

theorem claim10_witness :
    2 < 10 + 1 ∧ clearMultiples 3 [true, true] 5 = [true, true] :=
  ⟨(claim10_accesses_in_bounds 10).1 2 (by decide),
    (claim10_accesses_in_bounds 10).2.2.2 3 [true, true] 5 (by decide)⟩

/-! The shipped bound N = 50000: the bitmask count is evaluated by the kernel,
and transported to the three algorithms through the equalities above. -/

set_option maxRecDepth 100000 in
set_option maxHeartbeats 4000000 in
theorem fastMask_50000_val : fastMask 50000 = sieveMask50000 := by decide

set_option maxRecDepth 100000 in
set_option maxHeartbeats 4000000 in
theorem cnt_sieveMask_50000 : cnt sieveMask50000 50000 1 50000 = 5134 := by decide

theorem cnt_fastMask_50000 : cnt (fastMask 50000) 50000 1 50000 = 5134 := by
  rw [fastMask_50000_val]
  exact cnt_sieveMask_50000

theorem optimal_case_50000_length : (optimal_case 50000).length = 5134 := by
  have h1 := optimal_case_length 50000
  rw [cnt_fastMask_50000] at h1
  exact h1

/-- C7: at the shipped demonstration bound N = 50000, each algorithm returns a
sequence whose size excluding the leading 1 is 5133 (the number of primes
below 50000), and the three sequences agree after stripping the leading 1. -/
theorem claim7_shipped_bound :
    (simplest 50000).tail.length = 5133 ∧
    (using_remove_if 50000).tail.length = 5133 ∧
    (optimal_case 50000).tail.length = 5133 ∧
    (simplest 50000).tail = (using_remove_if 50000).tail ∧
    (using_remove_if 50000).tail = (optimal_case 50000).tail := by
  have heq1 : simplest 50000 = optimal_case 50000 := by
    rw [simplest_eq, optimal_case_eq]
  have heq2 : using_remove_if 50000 = optimal_case 50000 := by
    rw [using_remove_if_eq_simplest]
    exact heq1
  refine ⟨?_, ?_, ?_, ?_, ?_⟩
  · rw [heq1, List.length_tail, optimal_case_50000_length]
  · rw [heq2, List.length_tail, optimal_case_50000_length]
  · rw [List.length_tail, optimal_case_50000_length]
  · rw [heq1, heq2]
  · rw [heq2]

end Primes
